import Mathlib

/-!
# Verification of the `humanise` library

Shallow embedding of the two source files of the `humanise` Rust crate
(`src/lib.rs` and `src/durations.rs`) and proofs about them.

Rust `u128` values are modelled as `Nat` (all operations involved are
non-overflowing on `u128` exactly when they are the `Nat` operations;
subtraction and division, which can panic/underflow in Rust, additionally
get `Option`-valued "checked" embeddings used for the totality claim).
`String` formatting via `format!("{} {}", n, w)` is modelled as
`toString n ++ " " ++ w`.
-/

namespace Humanise

/-! ## Constants from `durations.rs` -/

def SECOND : Nat := 1000
def MINUTE : Nat := SECOND * 60
def HOUR : Nat := MINUTE * 60
def DAY : Nat := HOUR * 24

/-! ## `plural_suffix` from `lib.rs` -/

/-- Embedding of `plural_suffix(count, word, opposite)`:
adds the suffix `"s"` when (count ≠ 1) xor `opposite`. -/
def plural_suffix (count : Nat) (word : String) (opposite : Bool) : String :=
  let suffix :=
    if count = 1 then
      if opposite then "s" else ""
    else
      if opposite then "" else "s"
  word ++ suffix

/-! ## `humanise_list` from `lib.rs` -/

/-- Embedding of `humanise_list(list)`: the Rust function matches on
`list.len()` and, in the default branch, folds over the enumerated list
accumulating `str = format!("{}{}{}", str, prefix, value)`. The element
type is specialised to `String` (the Rust function formats each
`Display` element; here elements arrive already formatted). -/
def humanise_list (list : List String) : String :=
  match list.length with
  | 0 => ""
  | 1 => (list.head?).getD ""
  | 2 => ((list.head?).getD "") ++ " and " ++ ((list.getLast?).getD "")
  | _ =>
    list.enum.foldl
      (fun str iv =>
        str ++
          (if iv.1 = 0 then ""
           else if iv.1 = list.length - 1 then ", and "
           else ", ") ++ iv.2)
      ""

/-! ## Duration decomposition from `durations.rs` -/

/-- The 5-tuple of unit counts produced by the decomposition in
`humanise_duration_ms`. -/
structure Breakdown where
  days : Nat
  hours : Nat
  minutes : Nat
  seconds : Nat
  millis : Nat
deriving Repr, DecidableEq

/-- The decomposition block of `humanise_duration_ms` (lines 48–63 of
`durations.rs`), verbatim: each unit is computed as
`(remaining - remaining % unit) / unit` and the modulus is carried on. -/
def decompose (milliseconds : Nat) : Breakdown :=
  let days_mod := milliseconds % DAY
  let days := (milliseconds - days_mod) / DAY
  let remaining_millis := days_mod
  let hours_mod := remaining_millis % HOUR
  let hours := (remaining_millis - hours_mod) / HOUR
  let remaining_millis := hours_mod
  let minutes_mod := remaining_millis % MINUTE
  let minutes := (remaining_millis - minutes_mod) / MINUTE
  let remaining_millis := minutes_mod
  let seconds_mod := remaining_millis % SECOND
  let seconds := (remaining_millis - seconds_mod) / SECOND
  ⟨days, hours, minutes, seconds, seconds_mod⟩

/-- The phrase-building block of `humanise_duration_ms` (lines 65–96):
one conditional push per unit, in the order days, hours, minutes,
seconds, milliseconds. Note the non-verbose minutes base word is the
literal `"min "` with a trailing space, exactly as in the source. -/
def buildPhrases (milliseconds : Nat) (verbose : Bool) : List String :=
  let b := decompose milliseconds
  let vec : List String := []
  let vec := if b.days > 0 then
    vec ++ [toString b.days ++ " " ++ plural_suffix b.days "day" false] else vec
  let vec := if b.hours > 0 then
    vec ++ [toString b.hours ++ " " ++ plural_suffix b.hours "hour" false] else vec
  let vec := if b.minutes > 0 then
    vec ++ [toString b.minutes ++ " " ++
      plural_suffix b.minutes (if verbose then "minute" else "min ") false] else vec
  let vec := if b.seconds > 0 then
    vec ++ [toString b.seconds ++ " " ++
      plural_suffix b.seconds (if verbose then "second" else "sec") false] else vec
  let vec := if b.millis > 0 then
    vec ++ [toString b.millis ++ " " ++
      (if verbose then plural_suffix b.millis "millisecond" false else "ms")] else vec
  vec

/-- Embedding of `humanise_duration_ms(milliseconds, verbose)`:
the zero special case, then decomposition, phrase building and list
joining. -/
def humanise_duration_ms (milliseconds : Nat) (verbose : Bool) : String :=
  if milliseconds = 0 then
    if verbose then "0 seconds" else "0 secs"
  else
    humanise_list (buildPhrases milliseconds verbose)

/-! ## `humanise_duration` from `durations.rs` -/

/-- `std::time::Duration`: whole seconds plus a nanosecond part
(in Rust the invariant `nanos < 10^9` is maintained by construction). -/
structure Duration where
  secs : Nat
  nanos : Nat
deriving Repr, DecidableEq

/-- `Duration::as_millis`: `secs * 1000 + nanos / 1_000_000`. -/
def Duration.as_millis (d : Duration) : Nat :=
  d.secs * 1000 + d.nanos / 1000000

/-- Embedding of `humanise_duration(duration, verbose)`. -/
def humanise_duration (duration : Duration) (verbose : Bool) : String :=
  humanise_duration_ms duration.as_millis verbose

/-! ## Specification-side view of the phrase builder

The spec describes the phrase builder as: walk the units in descending
order, skip the zero-valued ones, and emit `"<value> <word>"` for the
rest. The following definitions state that view; the refinement lemma
`buildPhrases_eq_entries` connects it to the code. -/

/-- The five units, in the descending order the code pushes them. -/
inductive TimeUnit
  | days
  | hours
  | minutes
  | seconds
  | millis
deriving Repr, DecidableEq

/-- The unit word the code uses for a given unit, count and verbosity
(the word arguments of the `plural_suffix` calls in lines 65–96 of
`durations.rs`). -/
def unitWord (verbose : Bool) (u : TimeUnit) (n : Nat) : String :=
  match u with
  | .days => plural_suffix n "day" false
  | .hours => plural_suffix n "hour" false
  | .minutes => plural_suffix n (if verbose then "minute" else "min ") false
  | .seconds => plural_suffix n (if verbose then "second" else "sec") false
  | .millis => if verbose then plural_suffix n "millisecond" false else "ms"

/-- The decomposed unit values of an input, paired with their units, in
descending order. -/
def unitValues (m : Nat) : List (TimeUnit × Nat) :=
  let b := decompose m
  [(.days, b.days), (.hours, b.hours), (.minutes, b.minutes),
   (.seconds, b.seconds), (.millis, b.millis)]

/-- The units that actually produce a phrase: the non-zero-valued ones,
with their values, still in descending order. Note this does not depend
on the verbosity flag. -/
def phraseEntries (m : Nat) : List (TimeUnit × Nat) :=
  (unitValues m).filter (fun e => e.2 != 0)

/-! ## Checked embeddings for the totality claim

Rust `u128` subtraction underflows (panics in debug) when the
subtrahend exceeds the minuend, `%` and `/` panic on a zero divisor,
and `Option::unwrap` panics on `None`. The following variants model
every such fallible operation of the two core functions as an `Option`,
returning `none` exactly when the Rust original would panic. -/

/-- `u128` subtraction with the underflow case made explicit. -/
def checked_sub (a b : Nat) : Option Nat :=
  if b ≤ a then some (a - b) else none

/-- `u128` division with the zero-divisor case made explicit. -/
def checked_div (a b : Nat) : Option Nat :=
  if b = 0 then none else some (a / b)

/-- `u128` remainder with the zero-divisor case made explicit. -/
def checked_mod (a b : Nat) : Option Nat :=
  if b = 0 then none else some (a % b)

/-- `decompose` with every subtraction, division and remainder checked. -/
def decomposeChecked (milliseconds : Nat) : Option Breakdown := do
  let days_mod ← checked_mod milliseconds DAY
  let days ← checked_div (← checked_sub milliseconds days_mod) DAY
  let hours_mod ← checked_mod days_mod HOUR
  let hours ← checked_div (← checked_sub days_mod hours_mod) HOUR
  let minutes_mod ← checked_mod hours_mod MINUTE
  let minutes ← checked_div (← checked_sub hours_mod minutes_mod) MINUTE
  let seconds_mod ← checked_mod minutes_mod SECOND
  let seconds ← checked_div (← checked_sub minutes_mod seconds_mod) SECOND
  some ⟨days, hours, minutes, seconds, seconds_mod⟩

/-- `humanise_list` with the `first().unwrap()` / `last().unwrap()`
element accesses checked: `none` models an unwrap panic. -/
def humanise_list_checked (list : List String) : Option String :=
  match list.length with
  | 0 => some ""
  | 1 => list.head?
  | 2 => do
    let a ← list.head?
    let b ← list.getLast?
    some (a ++ " and " ++ b)
  | _ => some (list.enum.foldl
      (fun str iv =>
        str ++
          (if iv.1 = 0 then ""
           else if iv.1 = list.length - 1 then ", and "
           else ", ") ++ iv.2)
      "")

/-- `humanise_duration_ms` with the decomposition and the list join
checked (phrase formatting itself has no fallible operation). -/
def humanise_duration_ms_checked (milliseconds : Nat) (verbose : Bool) :
    Option String :=
  if milliseconds = 0 then
    some (if verbose then "0 seconds" else "0 secs")
  else do
    let _ ← decomposeChecked milliseconds
    humanise_list_checked (buildPhrases milliseconds verbose)

/-- Proof-side helper: the part of the ≥3-element join that follows the
first element — every element is preceded by `", "` except the final
one, which is preceded by `", and "`. -/
def joinTail : List String → String
  | [] => ""
  | [a] => ", and " ++ a
  | a :: b :: rest => ", " ++ a ++ joinTail (b :: rest)

/-! ## Shared lemmas -/

lemma joinTail_cons (x : String) (l : List String) (h : l ≠ []) :
    joinTail (x :: l) = ", " ++ x ++ joinTail l := by
  cases l with
  | nil => exact absurd rfl h
  | cons y ys => rfl

lemma intercalate_go_append (s : String) (l : List String) (x y : String) :
    String.intercalate.go (x ++ y) s l = x ++ String.intercalate.go y s l := by
  induction l generalizing y with
  | nil => simp [String.intercalate.go]
  | cons b bs ih =>
    simp only [String.intercalate.go]
    rw [show ((x ++ y) ++ s ++ b) = x ++ (y ++ s ++ b) by
      rw [String.append_assoc x y s, String.append_assoc x (y ++ s) b]]
    exact ih (y ++ s ++ b)

lemma intercalate_cons (s a b : String) (l : List String) :
    String.intercalate s (a :: b :: l) = a ++ s ++ String.intercalate s (b :: l) := by
  simp only [String.intercalate, String.intercalate.go]
  exact intercalate_go_append s l (a ++ s) b

/-- The fold in the default branch of `humanise_list`, over the tail of
the enumerated list (all indices ≥ 1), produces `joinTail`. The
parameter `n` is the length of the whole list, against which the fold
tests for the final index. -/
lemma foldl_enumFrom_join (n : Nat) (t : List String) :
    ∀ (s : Nat) (acc : String), 1 ≤ s → s + t.length = n →
    (List.enumFrom s t).foldl
      (fun str iv => str ++
        (if iv.1 = 0 then "" else if iv.1 = n - 1 then ", and " else ", ") ++ iv.2)
      acc = acc ++ joinTail t := by
  induction t with
  | nil => intro s acc _ _; simp [joinTail]
  | cons a t' ih =>
    intro s acc hs hn
    simp only [List.length_cons] at hn
    have hs0 : s ≠ 0 := by omega
    cases t' with
    | nil =>
      simp only [List.length_nil] at hn
      have hlast : s = n - 1 := by omega
      rw [show List.enumFrom s [a] = [(s, a)] from rfl, List.foldl_cons]
      simp only [if_neg hs0, if_pos hlast]
      simp [joinTail, String.append_assoc]
    | cons b t'' =>
      simp only [List.length_cons] at hn
      have hmid : s ≠ n - 1 := by omega
      rw [show List.enumFrom s (a :: b :: t'') =
            (s, a) :: List.enumFrom (s + 1) (b :: t'') from rfl,
          List.foldl_cons]
      simp only [if_neg hs0, if_neg hmid]
      rw [ih (s + 1) (acc ++ ", " ++ a) (by omega)
        (by simp only [List.length_cons]; omega)]
      rw [joinTail_cons a (b :: t'') (by simp)]
      simp [String.append_assoc]

/-- Gluing a head element onto `joinTail` of a tail-plus-last-element
list gives the serial-comma join. -/
lemma append_joinTail (t : List String) : ∀ (a last : String),
    a ++ joinTail (t ++ [last]) =
      String.intercalate ", " (a :: t) ++ ", and " ++ last := by
  induction t with
  | nil =>
    intro a last
    simp [joinTail, String.intercalate, String.intercalate.go, String.append_assoc]
  | cons b t' ih =>
    intro a last
    rw [List.cons_append, joinTail_cons b (t' ++ [last]) (by simp), intercalate_cons]
    simp [String.append_assoc, ih b last]

/-- On a list of three or more elements `humanise_list` takes its
default branch: the fold over the enumerated list. -/
lemma humanise_list_default (l : List String) (h : 3 ≤ l.length) :
    humanise_list l =
      l.enum.foldl
        (fun str iv => str ++
          (if iv.1 = 0 then "" else if iv.1 = l.length - 1 then ", and " else ", ") ++ iv.2)
        "" := by
  match l, h with
  | a :: b :: c :: rest, _ => rfl

/-- Refinement: the phrase-building block of the code equals the
spec-side view (filter the non-zero units, map to `"<value> <word>"`). -/
lemma buildPhrases_eq_entries (m : Nat) (v : Bool) :
    buildPhrases m v =
      (phraseEntries m).map (fun e => toString e.2 ++ " " ++ unitWord v e.1 e.2) := by
  by_cases h1 : (decompose m).days = 0 <;>
    by_cases h2 : (decompose m).hours = 0 <;>
      by_cases h3 : (decompose m).minutes = 0 <;>
        by_cases h4 : (decompose m).seconds = 0 <;>
          by_cases h5 : (decompose m).millis = 0 <;>
            simp [buildPhrases, phraseEntries, unitValues, unitWord,
              h1, h2, h3, h4, h5, Nat.pos_iff_ne_zero]

/-- The checked decomposition never fails and agrees with `decompose`:
every remainder is by a non-zero constant and every subtraction is of a
remainder from its dividend. -/
lemma decomposeChecked_eq (m : Nat) :
    decomposeChecked m = some (decompose m) := by
  simp [decomposeChecked, decompose, checked_mod, checked_sub, checked_div,
    DAY, HOUR, MINUTE, SECOND, Nat.mod_le]

/-- The checked list join never fails and agrees with `humanise_list`:
the element accesses are guarded by the length match. -/
lemma humanise_list_checked_eq (l : List String) :
    humanise_list_checked l = some (humanise_list l) := by
  match l with
  | [] => rfl
  | [a] => rfl
  | [a, b] => rfl
  | a :: b :: c :: rest => rfl

/-! ## Claim theorems -/

/-- C1: for every non-negative integer `m`, the unit decomposition
computed by `humanise_duration_ms` satisfies
`days*86400000 + hours*3600000 + minutes*60000 + seconds*1000 + millis = m`,
with `hours < 24`, `minutes < 60`, `seconds < 60` and `millis < 1000`. -/
theorem decompose_reconstruct_and_bounds (m : Nat) :
    (decompose m).days * 86400000 + (decompose m).hours * 3600000 +
      (decompose m).minutes * 60000 + (decompose m).seconds * 1000 +
      (decompose m).millis = m ∧
    (decompose m).hours < 24 ∧ (decompose m).minutes < 60 ∧
    (decompose m).seconds < 60 ∧ (decompose m).millis < 1000 := by
  simp only [decompose, DAY, HOUR, MINUTE, SECOND]
  omega

/-- C3: `humanise_duration_ms 0 true = "0 seconds"` and
`humanise_duration_ms 0 false = "0 secs"`. -/
theorem humanise_duration_ms_zero :
    humanise_duration_ms 0 true = "0 seconds" ∧
    humanise_duration_ms 0 false = "0 secs" :=
  ⟨rfl, rfl⟩

/-- C4: each zero-valued unit contributes no phrase at all, and the
phrases that appear are exactly one per non-zero unit in descending
unit order (`phraseEntries` filters the descending `unitValues` list to
the non-zero ones); e.g. `humanise_duration_ms 60000 true = "1 minute"`. -/
theorem buildPhrases_skips_zero_units (m : Nat) (v : Bool) :
    buildPhrases m v =
      (phraseEntries m).map (fun e => toString e.2 ++ " " ++ unitWord v e.1 e.2) ∧
    humanise_duration_ms 60000 true = "1 minute" :=
  ⟨buildPhrases_eq_entries m v, rfl⟩

/-- C5: in non-verbose mode the milliseconds unit word is the fixed
string `"ms"` for every count, while the seconds unit word is `"sec"`
for count 1 and `"secs"` otherwise. -/
theorem nonverbose_ms_fixed_seconds_pluralize (n : Nat) :
    unitWord false TimeUnit.millis n = "ms" ∧
    unitWord false TimeUnit.seconds n = (if n = 1 then "sec" else "secs") ∧
    humanise_duration_ms 5 false = "5 ms" ∧
    humanise_duration_ms 1000 false = "1 sec" ∧
    humanise_duration_ms 2000 false = "2 secs" := by
  refine ⟨rfl, ?_, rfl, rfl, rfl⟩
  by_cases h : n = 1 <;> simp [unitWord, plural_suffix, h]

/-- C7: `plural_suffix` with `opposite = false` returns the word
unchanged exactly when the count is 1 and appends `"s"` otherwise;
with `opposite = true` it does the opposite. -/
theorem plural_suffix_spec (count : Nat) (word : String) :
    (plural_suffix count word false = if count = 1 then word else word ++ "s") ∧
    (plural_suffix count word true = if count = 1 then word ++ "s" else word) := by
  by_cases h : count = 1 <;> simp [plural_suffix, h]

/-- C8: `humanise_duration d v` equals `humanise_duration_ms m v` where
`m` is `d`'s total nanosecond count truncated (not rounded) to whole
milliseconds. -/
theorem humanise_duration_delegates (d : Duration) (v : Bool) :
    humanise_duration d v =
      humanise_duration_ms ((d.secs * 1000000000 + d.nanos) / 1000000) v := by
  unfold humanise_duration Duration.as_millis
  congr 1
  omega

/-- C2 is false on the code: in non-verbose mode the minutes base word
is the literal `"min "` and it *is* passed through the pluralizer, so
for 2 minutes the emitted phrase is `"2 min s"` — an `"s"` is appended
and the word differs from the one used for 1 minute (`"min "`). -/
theorem nonverbose_minutes_counterexample :
    humanise_duration_ms 120000 false = "2 min s" ∧
    humanise_duration_ms 60000 false = "1 min " ∧
    unitWord false TimeUnit.minutes 2 = "min " ++ "s" ∧
    unitWord false TimeUnit.minutes 2 ≠ unitWord false TimeUnit.minutes 1 := by
  refine ⟨rfl, rfl, rfl, ?_⟩
  decide

/-- C2 (amended): in non-verbose mode the minutes base word is `"min "`
(with a trailing space) and it is pluralized like the other units: for
a non-zero minute count the emitted minutes phrase uses the word
`"min "` when the count is 1 and `"min s"` otherwise, and that phrase
occurs in the phrase list built by `humanise_duration_ms`. -/
theorem nonverbose_minutes_word (m : Nat)
    (h : (decompose m).minutes ≠ 0) :
    unitWord false TimeUnit.minutes (decompose m).minutes =
      (if (decompose m).minutes = 1 then "min " else "min s") ∧
    (toString (decompose m).minutes ++ " " ++
      unitWord false TimeUnit.minutes (decompose m).minutes) ∈
      buildPhrases m false := by
  constructor
  · by_cases h1 : (decompose m).minutes = 1 <;>
      simp [unitWord, plural_suffix, h1]
  · rw [buildPhrases_eq_entries]
    refine List.mem_map.2 ⟨(TimeUnit.minutes, (decompose m).minutes), ?_, rfl⟩
    unfold phraseEntries
    refine List.mem_filter.2 ⟨?_, ?_⟩
    · simp [unitValues]
    · simpa using h

/-- Witness for the amended C2 at the concrete input 120000 ms. -/
theorem nonverbose_minutes_word_witness :
    (decompose 120000).minutes ≠ 0 ∧
    (unitWord false TimeUnit.minutes (decompose 120000).minutes =
      (if (decompose 120000).minutes = 1 then "min " else "min s") ∧
    (toString (decompose 120000).minutes ++ " " ++
      unitWord false TimeUnit.minutes (decompose 120000).minutes) ∈
      buildPhrases 120000 false) :=
  ⟨by decide, nonverbose_minutes_word 120000 (by decide)⟩

/-- C9: the core operations are total — the checked embeddings, in
which every `unwrap`, subtraction, division and remainder of the
source is fallible, always return `some` and agree with the plain
embeddings (`plural_suffix` contains no fallible operation at all). -/
theorem core_operations_total :
    (∀ m v, humanise_duration_ms_checked m v = some (humanise_duration_ms m v)) ∧
    (∀ l, humanise_list_checked l = some (humanise_list l)) := by
  refine ⟨fun m v => ?_, humanise_list_checked_eq⟩
  unfold humanise_duration_ms_checked humanise_duration_ms
  by_cases h : m = 0
  · simp [h]
  · simp [h, decomposeChecked_eq, humanise_list_checked_eq]

/-- C10: the phrase lists built for the same input under the two
verbosity settings have the same length; both equal the map of a
verbosity-independent unit/value list (`phraseEntries`), so the same
units appear with the same numeric values; and the days and hours
words do not depend on verbosity at all. -/
theorem verbosity_noninterference (m : Nat) :
    (buildPhrases m true).length = (buildPhrases m false).length ∧
    (∀ v : Bool, buildPhrases m v =
      (phraseEntries m).map (fun e => toString e.2 ++ " " ++ unitWord v e.1 e.2)) ∧
    (∀ n : Nat,
      unitWord true TimeUnit.days n = unitWord false TimeUnit.days n ∧
      unitWord true TimeUnit.hours n = unitWord false TimeUnit.hours n) := by
  refine ⟨?_, fun v => buildPhrases_eq_entries m v, fun n => ⟨rfl, rfl⟩⟩
  rw [buildPhrases_eq_entries, buildPhrases_eq_entries]
  simp

/-- C6: `humanise_list` of the empty list is `""`, of a one-element
list is that element verbatim, of a two-element list is `"A and B"`,
and of any list of three or more elements joins all elements but the
last with `", "` and attaches the last with `", and "` (serial comma). -/
theorem humanise_list_spec :
    humanise_list [] = "" ∧
    (∀ a, humanise_list [a] = a) ∧
    (∀ a b, humanise_list [a, b] = a ++ " and " ++ b) ∧
    (∀ (init : List String) (last : String), 2 ≤ init.length →
      humanise_list (init ++ [last]) =
        String.intercalate ", " init ++ ", and " ++ last) := by
  refine ⟨rfl, fun a => rfl, fun a b => rfl, ?_⟩
  intro init last hlen
  match init, hlen with
  | a :: b :: t, _ =>
    rw [humanise_list_default _ (by simp)]
    rw [show (a :: b :: t ++ [last]).enum =
          (0, a) :: List.enumFrom 1 (b :: (t ++ [last])) from rfl,
        List.foldl_cons]
    rw [foldl_enumFrom_join ((a :: b :: t ++ [last]).length) (b :: (t ++ [last])) 1 _
      (by omega)
      (by simp only [List.length_cons, List.length_append, List.length_nil]; omega)]
    exact append_joinTail (b :: t) a last

/-- Witness for C6 at the concrete three-element list `["a", "b", "c"]`,
whose serial-comma join is `"a, b, and c"`. -/
theorem humanise_list_spec_witness :
    2 ≤ (["a", "b"] : List String).length ∧
    humanise_list (["a", "b"] ++ ["c"]) =
      String.intercalate ", " ["a", "b"] ++ ", and " ++ "c" :=
  ⟨by decide, humanise_list_spec.2.2.2 ["a", "b"] "c" (by decide)⟩

end Humanise
